import Mathlib

/-!
# Verification of the genji select/storage core

A shallow embedding of the repository's two source layers:

* the bolt-backed storage engine (`Store`, its cursor-based `iterator`
  with the reverse-seek algorithm, cooperative cancellation checks), and
* the select-statement execution pipeline (`SelectStmt.exec`,
  `documentMask` projection, the `ResultField` variants).

Go byte slices become `List Nat`, Go's `(value, error)` returns become
`Except`/`Option`-based results, and the mutable receiver of the Go
methods becomes explicit state passing.  External collaborators that the
source calls but whose code is not part of the translated files (the
bolt cursor primitives, the document/encoding value packages, the stream
combinators and the query optimizer) are modelled from their documented
contracts in the specification, each marked in its doc comment.
-/

namespace Genji

/-- Go `[]byte`: a byte string (each entry intended `< 256`; the claims
never depend on the bound). -/
abbrev Key := List Nat

/-- Engine values are also raw byte strings. -/
abbrev Val := List Nat

/-- Go `bytes.Compare`: lexicographic order on byte strings, a proper
prefix comparing less than the longer string. -/
def bytesCompare : Key → Key → Ordering
  | [], [] => .eq
  | [], _ :: _ => .lt
  | _ :: _, [] => .gt
  | a :: as, b :: bs =>
    if a < b then .lt
    else if b < a then .gt
    else bytesCompare as bs

/-- `a` is strictly below `b` in the byte order. -/
abbrev bLt (a b : Key) : Prop := bytesCompare a b = .lt

/-- `a` is at or below `b` in the byte order (`bytes.Compare(a,b) <= 0`). -/
abbrev bLe (a b : Key) : Prop := bytesCompare a b ≠ .gt

theorem bytesCompare_self (k : Key) : bytesCompare k k = .eq := by
  induction k with
  | nil => rfl
  | cons a as ih => simp [bytesCompare, ih]

theorem bytesCompare_eq_iff {a b : Key} : bytesCompare a b = .eq ↔ a = b := by
  induction a generalizing b with
  | nil => cases b <;> simp [bytesCompare]
  | cons x xs ih =>
    cases b with
    | nil => simp [bytesCompare]
    | cons y ys =>
      by_cases hxy : x < y
      · simp [bytesCompare, hxy]
        omega
      · by_cases hyx : y < x
        · simp [bytesCompare, hxy, hyx]
          omega
        · have hxy' : x = y := by omega
          simp [bytesCompare, hxy, hyx, hxy', ih]

theorem bytesCompare_swap (a b : Key) :
    bytesCompare b a = (bytesCompare a b).swap := by
  induction a generalizing b with
  | nil => cases b <;> simp [bytesCompare, Ordering.swap]
  | cons x xs ih =>
    cases b with
    | nil => simp [bytesCompare, Ordering.swap]
    | cons y ys =>
      by_cases hxy : x < y
      · have : ¬ y < x := by omega
        simp [bytesCompare, hxy, this, Ordering.swap]
      · by_cases hyx : y < x
        · simp [bytesCompare, hxy, hyx, Ordering.swap]
        · simp [bytesCompare, hxy, hyx, ih]

theorem bytesCompare_lt_trans {a b c : Key} :
    bytesCompare a b = .lt → bytesCompare b c = .lt → bytesCompare a c = .lt := by
  induction a generalizing b c with
  | nil =>
    intro h1 h2
    cases b with
    | nil => exact h2
    | cons y ys =>
      cases c with
      | nil => simp [bytesCompare] at h2
      | cons z zs => rfl
  | cons x xs ih =>
    intro h1 h2
    cases b with
    | nil => simp [bytesCompare] at h1
    | cons y ys =>
      cases c with
      | nil => simp [bytesCompare] at h2
      | cons z zs =>
        by_cases hxy : x < y
        · -- x < y and y ≤ z gives x < z
          by_cases hyz : y < z
          · have hxz : x < z := by omega
            simp [bytesCompare, hxz]
          · by_cases hzy : z < y
            · simp [bytesCompare, hyz, hzy] at h2
            · have hyz' : y = z := by omega
              have hxz : x < z := by omega
              simp [bytesCompare, hxz]
        · by_cases hyx : y < x
          · simp [bytesCompare, hxy, hyx] at h1
          · have hxy' : x = y := by omega
            subst hxy'
            by_cases hyz : x < z
            · simp [bytesCompare, hyz]
            · by_cases hzy : z < x
              · simp [bytesCompare, hyz, hzy] at h2
              · have : x = z := by omega
                subst this
                simp [bytesCompare, hyz] at h1 h2 ⊢
                exact ih h1 h2

theorem bLt_of_bLe_of_bLt {a b c : Key} (h1 : bLe a b) (h2 : bLt b c) : bLt a c := by
  rcases ho : bytesCompare a b with h | h | h
  · exact bytesCompare_lt_trans ho h2
  · have : a = b := bytesCompare_eq_iff.mp ho
    subst this; exact h2
  · exact absurd ho h1

theorem bLe_of_bLt {a b : Key} (h : bLt a b) : bLe a b := by
  unfold bLe; rw [h]; simp

theorem bLe_refl (a : Key) : bLe a a := by
  unfold bLe; rw [bytesCompare_self]; simp

theorem not_bLe_of_bLt_rev {a b : Key} (h : bLt b a) : ¬ bLe a b := by
  intro hle
  have hswap := bytesCompare_swap a b
  rw [h] at hswap
  rcases ho : bytesCompare a b with h' | h' | h' <;> rw [ho] at hswap <;>
    simp [Ordering.swap] at hswap
  exact hle ho

theorem bLe_trans {a b c : Key} (h1 : bLe a b) (h2 : bLe b c) : bLe a c := by
  rcases ho : bytesCompare b c with h | h | h
  · exact bLe_of_bLt (bLt_of_bLe_of_bLt h1 ho)
  · have : b = c := bytesCompare_eq_iff.mp ho
    subst this; exact h1
  · exact absurd ho h2

theorem bLt_or_eq_of_bLe {a b : Key} (h : bLe a b) : bLt a b ∨ a = b := by
  rcases ho : bytesCompare a b with h' | h' | h'
  · exact Or.inl ho
  · exact Or.inr (bytesCompare_eq_iff.mp ho)
  · exact absurd ho h

/-! ## Storage engine: bucket contents

Models the bolt bucket an engine `Store` wraps (external collaborator):
a key-sorted list of key/value entries with point lookup, ordered upsert
and single-key removal, matching the documented b-tree bucket contract
(unique keys, kept in `bytes.Compare` order). -/

/-- Bolt `bucket.Get`: value of the first entry whose key equals `k`,
`none` when absent. -/
def bucketGet : List (Key × Val) → Key → Option Val
  | [], _ => none
  | (k', v') :: rest, k =>
    if bytesCompare k' k = .eq then some v' else bucketGet rest k

/-- Bolt `bucket.Put`: upsert of `(k, v)` keeping the entries in
ascending key order. -/
def insertEntry : List (Key × Val) → Key → Val → List (Key × Val)
  | [], k, v => [(k, v)]
  | (k', v') :: rest, k, v =>
    match bytesCompare k k' with
    | .lt => (k, v) :: (k', v') :: rest
    | .eq => (k, v) :: rest
    | .gt => (k', v') :: insertEntry rest k v

/-- Bolt `bucket.Delete`: removes the entry whose key equals `k` (keys
are unique in a sorted bucket). -/
def removeEntry : List (Key × Val) → Key → List (Key × Val)
  | [], _ => []
  | (k', v') :: rest, k =>
    if bytesCompare k' k = .eq then rest else (k', v') :: removeEntry rest k

/-- The bucket invariant: entry keys strictly ascending in byte order. -/
def sortedB : List (Key × Val) → Bool
  | [] => true
  | [_] => true
  | a :: b :: rest =>
    match bytesCompare a.1 b.1 with
    | .lt => sortedB (b :: rest)
    | _ => false

theorem sortedB_cons {a : Key × Val} {l : List (Key × Val)}
    (h : sortedB (a :: l) = true) :
    sortedB l = true ∧ ∀ e ∈ l, bLt a.1 e.1 := by
  induction l generalizing a with
  | nil => exact ⟨rfl, by simp⟩
  | cons b rest ih =>
    have hab : bytesCompare a.1 b.1 = .lt := by
      unfold sortedB at h
      rcases ho : bytesCompare a.1 b.1 with h' | h' | h' <;> rw [ho] at h <;>
        first | rfl | cases h
    have hbl : sortedB (b :: rest) = true := by
      unfold sortedB at h
      rw [hab] at h
      exact h
    refine ⟨hbl, ?_⟩
    intro e he
    rcases List.mem_cons.mp he with he | he
    · subst he; exact hab
    · exact bytesCompare_lt_trans hab ((ih hbl).2 e he)

theorem bucketGet_eq_none_of_forall_lt {es : List (Key × Val)} {k : Key}
    (h : ∀ e ∈ es, bLt k e.1) : bucketGet es k = none := by
  induction es with
  | nil => rfl
  | cons a rest ih =>
    have ha : bLt k a.1 := h a (by simp)
    have hne : bytesCompare a.1 k ≠ .eq := by
      intro heq
      have : a.1 = k := bytesCompare_eq_iff.mp heq
      subst this
      simp [bLt, bytesCompare_self] at ha
    obtain ⟨a1, a2⟩ := a
    simp only [bucketGet, hne, if_neg]
    exact ih fun e he => h e (by simp [he])

theorem bucketGet_insertEntry_self (es : List (Key × Val)) (k : Key) (v : Val) :
    bucketGet (insertEntry es k v) k = some v := by
  induction es with
  | nil => simp [insertEntry, bucketGet, bytesCompare_self]
  | cons a rest ih =>
    obtain ⟨a1, a2⟩ := a
    rcases ho : bytesCompare k a1 with h | h | h <;>
      simp only [insertEntry, ho]
    · simp [bucketGet, bytesCompare_self]
    · simp [bucketGet, bytesCompare_self]
    · have hne : bytesCompare a1 k ≠ .eq := by
        intro heq
        have : a1 = k := bytesCompare_eq_iff.mp heq
        subst this
        rw [bytesCompare_self] at ho
        cases ho
      simp [bucketGet, hne, ih]

theorem bucketGet_removeEntry_self {es : List (Key × Val)} {k : Key}
    (h : sortedB es = true) : bucketGet (removeEntry es k) k = none := by
  induction es with
  | nil => rfl
  | cons a rest ih =>
    obtain ⟨hrest, hlt⟩ := sortedB_cons h
    obtain ⟨a1, a2⟩ := a
    by_cases heq : bytesCompare a1 k = .eq
    · have : a1 = k := bytesCompare_eq_iff.mp heq
      subst this
      simp only [removeEntry, heq, if_pos]
      exact bucketGet_eq_none_of_forall_lt fun e he => hlt e he
    · simp only [removeEntry, heq, if_neg, bucketGet, not_false_eq_true]
      exact ih hrest

/-! ## Storage engine: `Store`

Translation of the `boltengine` source file.  The Go `context.Context`
cancellation token becomes the boolean `ctxDone` (whether the `select`
on `ctx.Done()` fires); `bucket.Writable()` becomes `writable`; the
bucket sequence counter becomes `sequence`.  Mutating methods return the
Go error (as `Option`/`Except`) together with the post-call store. -/

/-- Errors of the engine layer (`engine.ErrKeyNotFound`,
`engine.ErrTransactionReadOnly`, `ctx.Err()`). -/
inductive EngErr where
  | keyNotFound
  | txReadOnly
  | cancelled
deriving DecidableEq, Repr

/-- The `boltengine.Store`: bucket contents plus the writability of the
owning transaction and its cancellation token. -/
structure Store where
  entries : List (Key × Val)
  writable : Bool
  ctxDone : Bool
  sequence : Nat
deriving DecidableEq, Repr

/-- `Store.Put`: cancellation check, then read-only check, then upsert. -/
def Store.put (s : Store) (k : Key) (v : Val) : Option EngErr × Store :=
  if s.ctxDone then (some .cancelled, s)
  else if s.writable = false then (some .txReadOnly, s)
  else (none, { s with entries := insertEntry s.entries k v })

/-- `Store.Get`: cancellation check, then point lookup;
a `nil` bucket result becomes `engine.ErrKeyNotFound`. -/
def Store.get (s : Store) (k : Key) : Except EngErr Val :=
  if s.ctxDone then .error .cancelled
  else
    match bucketGet s.entries k with
    | none => .error .keyNotFound
    | some v => .ok v

/-- `Store.Delete`: cancellation check, read-only check, presence check
via `bucket.Get`, then removal. -/
def Store.delete (s : Store) (k : Key) : Option EngErr × Store :=
  if s.ctxDone then (some .cancelled, s)
  else if s.writable = false then (some .txReadOnly, s)
  else
    match bucketGet s.entries k with
    | none => (some .keyNotFound, s)
    | some _ => (none, { s with entries := removeEntry s.entries k })

/-- `Store.Truncate`: cancellation check, read-only check, then
drop-and-recreate of the bucket (fresh bucket: empty contents, sequence
counter reset). -/
def Store.truncate (s : Store) : Option EngErr × Store :=
  if s.ctxDone then (some .cancelled, s)
  else if s.writable = false then (some .txReadOnly, s)
  else (none, { s with entries := [], sequence := 0 })

/-- `Store.NextSequence`: cancellation check, read-only check, then the
bucket's monotonically increasing counter. -/
def Store.nextSequence (s : Store) : Except EngErr Nat × Store :=
  if s.ctxDone then (.error .cancelled, s)
  else if s.writable = false then (.error .txReadOnly, s)
  else (.ok (s.sequence + 1), { s with sequence := s.sequence + 1 })

/-! ## Storage engine: cursor and iterator

The bolt `Cursor` (external collaborator) is a position over the sorted
bucket entries: `Seek` moves to the first key at or above the pivot and
returns it (`nil` when past the end), `Last` moves to the final entry,
`Prev` steps back one entry, returning `nil` at the front.  The
`iterator` type and its `Seek` method — including the reverse-seek
walk-back loop — are translated from the source. -/

/-- The bolt cursor: the sorted bucket entries plus the cursor position
(an index; `entries.length` stands for "past the end"). -/
structure Cursor where
  entries : List (Key × Val)
  pos : Nat
deriving DecidableEq, Repr

/-- Index of the first entry whose key is at or above `pivot`. -/
def seekIdx : List (Key × Val) → Key → Option Nat
  | [], _ => none
  | e :: rest, pivot =>
    if bytesCompare e.1 pivot ≠ .lt then some 0
    else (seekIdx rest pivot).map (· + 1)

/-- Bolt `Cursor.Seek`: position on the first key ≥ pivot and return
that entry, or `nil` when every key is below the pivot. -/
def Cursor.seekC (c : Cursor) (pivot : Key) : Cursor × Option (Key × Val) :=
  match seekIdx c.entries pivot with
  | some i => ({ c with pos := i }, c.entries[i]?)
  | none => ({ c with pos := c.entries.length }, none)

/-- Bolt `Cursor.Last`: position on the final entry and return it, or
`nil` on an empty bucket. -/
def Cursor.lastC (c : Cursor) : Cursor × Option (Key × Val) :=
  ({ c with pos := c.entries.length - 1 }, c.entries.getLast?)

/-- The `boltengine.iterator`: cursor, direction flag, current item
(`none` models a `nil` item key), sticky error, and the transaction's
cancellation token. -/
structure Iterator where
  c : Cursor
  reverse : Bool
  item : Option (Key × Val)
  err : Option EngErr
  ctxDone : Bool

/-- `Store.Iterator`: builds a fresh iterator over the bucket's cursor.
Note: no cancellation check is performed here (the method cannot even
return an error); the check happens inside `Iterator.seekI`. -/
def Store.iteratorC (s : Store) (reverse : Bool) : Iterator :=
  { c := { entries := s.entries, pos := 0 }
    reverse := reverse
    item := none
    err := none
    ctxDone := s.ctxDone }

/-- The walk-back loop of the reverse seek
(`for bytes.Compare(it.item.k, pivot) > 0 { Prev }`), expressed on the
cursor position: while the current item's key is strictly above the
pivot, step the cursor back; `Prev` at position 0 yields a `nil` key,
on which the loop condition fails (a `nil` key never compares above a
pivot).  Returns the final position and item. -/
def walkBackAux (es : List (Key × Val)) (pivot : Key) :
    Nat → Option (Key × Val) → Nat × Option (Key × Val)
  | pos, none => (pos, none)
  | pos, some kv =>
    if bytesCompare kv.1 pivot = .gt then
      match pos with
      | 0 => (0, none)
      | i + 1 => walkBackAux es pivot i es[i]?
    else (pos, some kv)

/-- `iterator.Seek`: cancellation check first; forward mode delegates to
the cursor seek; reverse mode treats an empty pivot as `Last`, otherwise
forward-seeks and, when an item was found, walks backward while its key
is strictly above the pivot. -/
def Iterator.seekI (it : Iterator) (pivot : Key) : Iterator :=
  if it.ctxDone then { it with err := some .cancelled }
  else if it.reverse = false then
    let r := it.c.seekC pivot
    { it with c := r.1, item := r.2 }
  else if pivot.length = 0 then
    let r := it.c.lastC
    { it with c := r.1, item := r.2 }
  else
    let r := it.c.seekC pivot
    if r.2.isSome then
      let w := walkBackAux r.1.entries pivot r.1.pos r.2
      { it with c := { r.1 with pos := w.1 }, item := w.2 }
    else
      { it with c := r.1, item := r.2 }

/-- `iterator.Valid`: positioned on an item and no sticky error. -/
def Iterator.valid (it : Iterator) : Bool :=
  it.item.isSome && it.err.isNone

/-! ## Lemmas about the cursor seek index -/

theorem bLt_rev_of_gt {a b : Key} (h : bytesCompare a b = .gt) : bLt b a := by
  have hs := bytesCompare_swap a b
  rw [h] at hs
  simpa [Ordering.swap] using hs

theorem mem_of_getElem?G {α : Type} {l : List α} {i : Nat} {a : α}
    (h : l[i]? = some a) : a ∈ l := by
  induction l generalizing i with
  | nil => simp at h
  | cons x xs ih =>
    cases i with
    | zero =>
      simp only [List.getElem?_cons_zero, Option.some.injEq] at h
      simp [h]
    | succ j =>
      simp only [List.getElem?_cons_succ] at h
      exact List.mem_cons_of_mem x (ih h)

theorem getElem?_of_memG {α : Type} {l : List α} {a : α} (h : a ∈ l) :
    ∃ i : Nat, l[i]? = some a := by
  induction l with
  | nil => simp at h
  | cons x xs ih =>
    rcases List.mem_cons.mp h with h | h
    · exact ⟨0, by simp [h]⟩
    · obtain ⟨i, hi⟩ := ih h
      exact ⟨i + 1, by simpa using hi⟩

theorem getElem?_isSome_of_lt {α : Type} {l : List α} {i : Nat}
    (h : i < l.length) : ∃ a, l[i]? = some a := by
  induction l generalizing i with
  | nil => simp at h
  | cons x xs ih =>
    cases i with
    | zero => exact ⟨x, by simp⟩
    | succ j =>
      obtain ⟨a, ha⟩ := ih (i := j) (by simpa using h)
      exact ⟨a, by simpa using ha⟩

theorem seekIdx_none_forall {es : List (Key × Val)} {pivot : Key}
    (h : seekIdx es pivot = none) : ∀ e ∈ es, bLt e.1 pivot := by
  induction es with
  | nil => simp
  | cons a rest ih =>
    unfold seekIdx at h
    by_cases hc : bytesCompare a.1 pivot = .lt
    · rw [if_neg (not_not_intro hc)] at h
      intro e he
      rcases List.mem_cons.mp he with he | he
      · subst he; exact hc
      · exact ih (Option.map_eq_none'.mp h) e he
    · rw [if_pos hc] at h
      cases h

theorem seekIdx_none_of_forall {es : List (Key × Val)} {pivot : Key}
    (h : ∀ e ∈ es, bLt e.1 pivot) : seekIdx es pivot = none := by
  induction es with
  | nil => rfl
  | cons a rest ih =>
    unfold seekIdx
    rw [if_neg (not_not_intro (h a (by simp)))]
    rw [ih fun e he => h e (by simp [he])]
    rfl

theorem seekIdx_isSome_of_exists {es : List (Key × Val)} {pivot : Key}
    {e : Key × Val} (he : e ∈ es) (hge : ¬ bLt e.1 pivot) :
    ∃ i, seekIdx es pivot = some i := by
  rcases ho : seekIdx es pivot with _ | i
  · exact absurd (seekIdx_none_forall ho e he) hge
  · exact ⟨i, rfl⟩

theorem seekIdx_some_spec {es : List (Key × Val)} {pivot : Key} {i : Nat}
    (h : seekIdx es pivot = some i) :
    ∃ kv, es[i]? = some kv ∧ ¬ bLt kv.1 pivot ∧
      ∀ j kv', j < i → es[j]? = some kv' → bLt kv'.1 pivot := by
  induction es generalizing i with
  | nil => cases h
  | cons a rest ih =>
    unfold seekIdx at h
    by_cases hc : bytesCompare a.1 pivot = .lt
    · rw [if_neg (not_not_intro hc)] at h
      rcases ho : seekIdx rest pivot with _ | i'
      · rw [ho] at h; cases h
      · rw [ho] at h
        simp only [Option.map_some', Option.some.injEq] at h
        subst h
        obtain ⟨kv, hkv, hge, hlt⟩ := ih ho
        refine ⟨kv, by simpa using hkv, hge, ?_⟩
        intro j kv' hj hj'
        cases j with
        | zero =>
          simp only [List.getElem?_cons_zero, Option.some.injEq] at hj'
          subst hj'; exact hc
        | succ j' =>
          simp only [List.getElem?_cons_succ] at hj'
          exact hlt j' kv' (by omega) hj'
    · rw [if_pos hc] at h
      obtain rfl : (0 : Nat) = i := by injection h
      exact ⟨a, by simp, hc, by intro j kv' hj _; omega⟩

theorem sortedB_lt_idx {es : List (Key × Val)} (h : sortedB es = true)
    {i j : Nat} {ei ej : Key × Val} (hij : i < j)
    (hi : es[i]? = some ei) (hj : es[j]? = some ej) : bLt ei.1 ej.1 := by
  induction es generalizing i j with
  | nil => simp at hi
  | cons a rest ih =>
    obtain ⟨hrest, hall⟩ := sortedB_cons h
    cases j with
    | zero => omega
    | succ j' =>
      simp only [List.getElem?_cons_succ] at hj
      cases i with
      | zero =>
        simp only [List.getElem?_cons_zero, Option.some.injEq] at hi
        subst hi
        exact hall ej (mem_of_getElem?G hj)
      | succ i' =>
        simp only [List.getElem?_cons_succ] at hi
        exact ih hrest (by omega) hi hj

/-- Reduction of a reverse `Seek` (non-empty pivot, live context) to the
seek index and the walk-back loop. -/
theorem seekI_reverse_item (s : Store) (pivot : Key)
    (hd : s.ctxDone = false) (hp : pivot ≠ []) :
    ((s.iteratorC true).seekI pivot).item =
      match seekIdx s.entries pivot with
      | none => none
      | some i => (walkBackAux s.entries pivot i s.entries[i]?).2 := by
  unfold Store.iteratorC Iterator.seekI Cursor.seekC
  simp only [hd, Bool.false_eq_true, if_false, List.length_eq_zero, hp]
  rcases ho : seekIdx s.entries pivot with _ | i
  · simp
  · obtain ⟨kv, hkv, -, -⟩ := seekIdx_some_spec ho
    simp [hkv]

/-- The bolt-backed test store with keys 1, 3, 5, 7. -/
def s4 : Store :=
  { entries := [([1], []), ([3], []), ([5], []), ([7], [])]
    writable := false
    ctxDone := false
    sequence := 0 }

/-- C1 (amended): over a sorted store with a live (non-cancelled)
context, a reverse `Seek` with an empty pivot lands on the last key;
with a non-empty pivot for which some key ≥ pivot exists, it lands on
the greatest key ≤ pivot when one exists and is exhausted otherwise;
but when every key is strictly below the pivot the forward seek finds
nothing and the iterator is exhausted, even though keys ≤ pivot exist. -/
theorem c1_reverse_seek (s : Store) (pivot : Key)
    (hs : sortedB s.entries = true) (hd : s.ctxDone = false) :
    (pivot = [] → ((s.iteratorC true).seekI pivot).item = s.entries.getLast?)
    ∧ (pivot ≠ [] → (∃ e ∈ s.entries, bLe pivot e.1) →
        ((∃ kv, ((s.iteratorC true).seekI pivot).item = some kv ∧
            kv ∈ s.entries ∧ bLe kv.1 pivot ∧
            ∀ e ∈ s.entries, bLe e.1 pivot → bLe e.1 kv.1)
          ∨ (((s.iteratorC true).seekI pivot).item = none ∧
              ∀ e ∈ s.entries, ¬ bLe e.1 pivot)))
    ∧ (pivot ≠ [] → (∀ e ∈ s.entries, bLt e.1 pivot) →
        ((s.iteratorC true).seekI pivot).item = none) := by
  refine ⟨?_, ?_, ?_⟩
  · intro hpe
    subst hpe
    simp [Store.iteratorC, Iterator.seekI, Cursor.lastC, hd]
  · intro hp hex
    obtain ⟨e, he, hge⟩ := hex
    have hits := seekI_reverse_item s pivot hd hp
    have hnlt : ¬ bLt e.1 pivot := fun hlt => not_bLe_of_bLt_rev hlt hge
    obtain ⟨i, hsome⟩ := seekIdx_isSome_of_exists he hnlt
    obtain ⟨kvi, hkvi, hgei, hltj⟩ := seekIdx_some_spec hsome
    simp only [hsome, hkvi] at hits
    rcases ho : bytesCompare kvi.1 pivot with h' | h' | h'
    · exact absurd ho hgei
    · -- landed exactly on the pivot: the loop does not move
      rw [show walkBackAux s.entries pivot i (some kvi) = (i, some kvi) by
        unfold walkBackAux; rw [ho]; simp] at hits
      refine Or.inl ⟨kvi, hits, mem_of_getElem?G hkvi, by simp [bLe, ho], ?_⟩
      intro e' he' hle'
      have hkp : kvi.1 = pivot := bytesCompare_eq_iff.mp ho
      rw [hkp]
      exact hle'
    · -- landed strictly above the pivot: one step back
      cases i with
      | zero =>
        rw [show walkBackAux s.entries pivot 0 (some kvi) = (0, none) by
          unfold walkBackAux; rw [ho]; simp] at hits
        refine Or.inr ⟨hits, ?_⟩
        intro e' he' hle'
        obtain ⟨j, hj⟩ := getElem?_of_memG he'
        have hppiv : bLt pivot kvi.1 := bLt_rev_of_gt ho
        cases j with
        | zero =>
          rw [hj] at hkvi
          obtain rfl : e' = kvi := by injection hkvi
          exact hle' ho
        | succ j' =>
          have : bLt kvi.1 e'.1 := sortedB_lt_idx hs (by omega) hkvi hj
          exact not_bLe_of_bLt_rev (bytesCompare_lt_trans hppiv this) hle'
      | succ i' =>
        have hi'len : i' + 1 < s.entries.length := by
          rcases hlen : s.entries[i' + 1]? with _ | kv2
          · rw [hlen] at hkvi; cases hkvi
          · exact (List.getElem?_eq_some.mp (hkvi)).1
        rcases hkv' : s.entries[i']? with _ | kvi'
        · obtain ⟨a, ha⟩ := getElem?_isSome_of_lt (l := s.entries) (i := i')
            (by omega)
          rw [hkv'] at ha
          cases ha
        · have hlt' : bLt kvi'.1 pivot := hltj i' kvi' (by omega) hkv'
          rw [show walkBackAux s.entries pivot (i' + 1) (some kvi) =
              (i', some kvi') by
            unfold walkBackAux; rw [ho]
            simp only [hkv']
            unfold walkBackAux
            rw [hlt']; simp] at hits
          refine Or.inl ⟨kvi', hits, mem_of_getElem?G hkv', bLe_of_bLt hlt', ?_⟩
          intro e' he' hle'
          obtain ⟨j, hj⟩ := getElem?_of_memG he'
          have hppiv : bLt pivot kvi.1 := bLt_rev_of_gt ho
          rcases Nat.lt_trichotomy j (i' + 1) with hji | hji | hji
          · rcases Nat.lt_or_ge j i' with hj' | hj'
            · exact bLe_of_bLt (sortedB_lt_idx hs hj' hj hkv')
            · obtain rfl : j = i' := by omega
              rw [hj] at hkv'
              have he'kv : e' = kvi' := by injection hkv'
              rw [he'kv]
              exact bLe_refl _
          · subst hji
            rw [hj] at hkvi
            obtain rfl : e' = kvi := by injection hkvi
            exact absurd ho hle'
          · have : bLt kvi.1 e'.1 := sortedB_lt_idx hs hji hkvi hj
            exact absurd hle'
              (not_bLe_of_bLt_rev (bytesCompare_lt_trans hppiv this))
  · intro hp hall
    have hits := seekI_reverse_item s pivot hd hp
    rw [seekIdx_none_of_forall hall] at hits
    exact hits

/-- C1 counterexample: on the store with keys 1,3,5,7 and the non-empty
pivot 8, the reverse `Seek` leaves the iterator exhausted (`nil` item)
although key 7 is ≤ the pivot — contradicting "Seek in reverse mode
positions the cursor on the greatest key ≤ pivot, invalid only when no
key ≤ pivot exists". -/
theorem c1_reverse_seek_cex :
    ((s4.iteratorC true).seekI [8]).item = none ∧
    ([7], ([] : Val)) ∈ s4.entries ∧ bLe [7] [8] ∧ ([8] : Key) ≠ [] :=
  ⟨rfl, by decide, by decide, by decide⟩

/-- C1 witness: the amended theorem applied to the store with keys
1,3,5,7 and pivot 6 (hypotheses discharged by computation). -/
theorem c1_reverse_seek_witness :
    (∃ kv, ((s4.iteratorC true).seekI [6]).item = some kv ∧
        kv ∈ s4.entries ∧ bLe kv.1 [6] ∧
        ∀ e ∈ s4.entries, bLe e.1 [6] → bLe e.1 kv.1)
      ∨ (((s4.iteratorC true).seekI [6]).item = none ∧
          ∀ e ∈ s4.entries, ¬ bLe e.1 [6]) :=
  (c1_reverse_seek s4 [6] (by decide) rfl).2.1 (by decide)
    ⟨([7], []), by decide, by decide⟩

/-- A read-only store whose transaction context is already cancelled. -/
def roDoneStore : Store :=
  { entries := [([1], [9])], writable := false, ctxDone := true, sequence := 3 }

/-- A read-only store with a live (non-cancelled) context. -/
def roLiveStore : Store :=
  { entries := [([1], [9])], writable := false, ctxDone := false, sequence := 3 }

/-- C4 counterexample: on a read-only store whose cancellation signal is
already triggered, `Put` fails with the cancellation error, not with
`ReadOnly` — so "every mutating operation on a read-only store fails
with ReadOnly" does not hold for every read-only store. -/
theorem c4_readonly_cex :
    roDoneStore.writable = false ∧
    (roDoneStore.put [2] [5]).1 = some EngErr.cancelled ∧
    some EngErr.cancelled ≠ some EngErr.txReadOnly :=
  ⟨rfl, rfl, by decide⟩

/-- C4 (amended): on a read-only store whose cancellation signal is not
triggered, each of `Put`, `Delete`, `Truncate` and `NextSequence` fails
with the `ReadOnly` error and leaves the store — contents and sequence
state — unchanged. -/
theorem c4_readonly_mutations (s : Store) (k : Key) (v : Val)
    (hw : s.writable = false) (hd : s.ctxDone = false) :
    s.put k v = (some EngErr.txReadOnly, s) ∧
    s.delete k = (some EngErr.txReadOnly, s) ∧
    s.truncate = (some EngErr.txReadOnly, s) ∧
    s.nextSequence = (Except.error EngErr.txReadOnly, s) := by
  refine ⟨?_, ?_, ?_, ?_⟩ <;>
    simp [Store.put, Store.delete, Store.truncate, Store.nextSequence, hw, hd]

/-- C4 witness: the amended theorem at a concrete read-only store. -/
theorem c4_readonly_mutations_witness :
    roLiveStore.put [2] [5] = (some EngErr.txReadOnly, roLiveStore) ∧
    roLiveStore.delete [2] = (some EngErr.txReadOnly, roLiveStore) ∧
    roLiveStore.truncate = (some EngErr.txReadOnly, roLiveStore) ∧
    roLiveStore.nextSequence = (Except.error EngErr.txReadOnly, roLiveStore) :=
  c4_readonly_mutations roLiveStore [2] [5] rfl rfl

/-- A writable store whose transaction context is already cancelled. -/
def doneStore : Store :=
  { entries := [([1], [9])], writable := true, ctxDone := true, sequence := 0 }

/-- C5 counterexample: `Store.Iterator` performs no cancellation check —
on a store whose cancellation signal is already triggered it still
builds and returns an iterator carrying no error, rather than returning
the cancellation error. -/
theorem c5_cancellation_cex :
    doneStore.ctxDone = true ∧
    (doneStore.iteratorC false).err = none ∧
    (doneStore.iteratorC false).c.entries = doneStore.entries :=
  ⟨rfl, rfl, rfl⟩

/-- C5 (amended): `Put`, `Get`, `Delete`, `Truncate`, `NextSequence` and
the iterator's `Seek` all check the cancellation signal first and, when
it is triggered, return the cancellation error leaving the store (and,
for `Seek`, the cursor and current item) unchanged; iterator creation,
however, performs no check — it returns an error-free iterator and the
cancellation only surfaces at the first `Seek`. -/
theorem c5_cancellation_first (s : Store) (k : Key) (v : Val) (r : Bool)
    (pivot : Key) (hd : s.ctxDone = true) :
    s.put k v = (some EngErr.cancelled, s) ∧
    s.get k = Except.error EngErr.cancelled ∧
    s.delete k = (some EngErr.cancelled, s) ∧
    s.truncate = (some EngErr.cancelled, s) ∧
    s.nextSequence = (Except.error EngErr.cancelled, s) ∧
    (s.iteratorC r).err = none ∧
    (s.iteratorC r).seekI pivot =
      { s.iteratorC r with err := some EngErr.cancelled } := by
  refine ⟨?_, ?_, ?_, ?_, ?_, rfl, ?_⟩ <;>
    simp [Store.put, Store.get, Store.delete, Store.truncate,
      Store.nextSequence, Store.iteratorC, Iterator.seekI, hd]

/-- C5 witness: the amended theorem at a concrete cancelled store. -/
theorem c5_cancellation_first_witness :
    doneStore.put [2] [5] = (some EngErr.cancelled, doneStore) ∧
    doneStore.get [2] = Except.error EngErr.cancelled ∧
    doneStore.delete [2] = (some EngErr.cancelled, doneStore) ∧
    doneStore.truncate = (some EngErr.cancelled, doneStore) ∧
    doneStore.nextSequence = (Except.error EngErr.cancelled, doneStore) ∧
    (doneStore.iteratorC true).err = none ∧
    (doneStore.iteratorC true).seekI [1] =
      { doneStore.iteratorC true with err := some EngErr.cancelled } :=
  c5_cancellation_first doneStore [2] [5] true [1] rfl

/-- A writable store with a cancelled context (for the C9 counterexample). -/
def rwDoneStore : Store :=
  { entries := [], writable := true, ctxDone := true, sequence := 0 }

/-- A writable live store holding key 1 (for the C9 witness). -/
def rwLiveStore : Store :=
  { entries := [([1], [7])], writable := true, ctxDone := false, sequence := 0 }

/-- C9 counterexample: on a writable store whose cancellation signal is
already triggered, `Get` after `Put(k, v)` returns the cancellation
error, not `v` — so the round-trip law does not hold for every writable
store. -/
theorem c9_roundtrip_cex :
    rwDoneStore.writable = true ∧
    ((rwDoneStore.put [1] [9]).2).get [1] = Except.error EngErr.cancelled ∧
    (Except.error EngErr.cancelled : Except EngErr Val) ≠ Except.ok [9] :=
  ⟨rfl, rfl, fun h => by cases h⟩

/-- C9 (amended): on a writable, sorted store whose cancellation signal
is not triggered: `Get` after `Put(k, v)` returns `v`; `Get` after
`Delete(k)` fails with `KeyNotFound` (whether or not `k` was present);
`Get` on an absent key fails with `KeyNotFound`; and `Delete` on an
absent key fails with `KeyNotFound`. -/
theorem c9_store_roundtrip (s : Store) (k : Key) (v : Val)
    (hw : s.writable = true) (hd : s.ctxDone = false)
    (hs : sortedB s.entries = true) :
    ((s.put k v).2).get k = Except.ok v ∧
    ((s.delete k).2).get k = Except.error EngErr.keyNotFound ∧
    (bucketGet s.entries k = none → s.get k = Except.error EngErr.keyNotFound) ∧
    (bucketGet s.entries k = none →
      (s.delete k).1 = some EngErr.keyNotFound) := by
  refine ⟨?_, ?_, ?_, ?_⟩
  · simp [Store.put, Store.get, hw, hd, bucketGet_insertEntry_self]
  · rcases hb : bucketGet s.entries k with _ | w
    · simp [Store.delete, Store.get, hw, hd, hb]
    · simp [Store.delete, Store.get, hw, hd, hb,
        bucketGet_removeEntry_self hs]
  · intro hb
    simp [Store.get, hd, hb]
  · intro hb
    simp [Store.delete, hw, hd, hb]

/-- C9 witness: the amended theorem at a concrete writable store and an
absent key. -/
theorem c9_store_roundtrip_witness :
    ((rwLiveStore.put [2] [5]).2).get [2] = Except.ok [5] ∧
    ((rwLiveStore.delete [2]).2).get [2] = Except.error EngErr.keyNotFound ∧
    (bucketGet rwLiveStore.entries [2] = none →
      rwLiveStore.get [2] = Except.error EngErr.keyNotFound) ∧
    (bucketGet rwLiveStore.entries [2] = none →
      (rwLiveStore.delete [2]).1 = some EngErr.keyNotFound) :=
  c9_store_roundtrip rwLiveStore [2] [5] rfl rfl (by decide)

/-! ## Document and value model

Modelled from the spec: the external `document` package's value model —
a tagged union with a type tag, fallible conversions, and by-name field
lookup whose miss is the distinguished `FieldNotFound` outcome.  The
claims settled here exercise the integer/string/bool/null/blob/document
variants; the float member of the numeric family is irrelevant to every
claim and omitted.  `zeroV` stands for Go's zero `document.Value{}`
(the value an errored evaluation leaves behind). -/

/-- Value type tags (`document.ValueType`). -/
inductive VType where
  | nullT | boolT | intT | strT | blobT | docT | zeroT
deriving DecidableEq, Repr

/-- Document values (`document.Value`). -/
inductive Value where
  | nullV
  | boolV (b : Bool)
  | intV (n : Int)
  | strV (s : String)
  | blobV (bs : List Nat)
  | docV (fields : List (String × Value))
  | zeroV

/-- `Value.Type`. -/
def Value.typeOf : Value → VType
  | .nullV => .nullT
  | .boolV _ => .boolT
  | .intV _ => .intT
  | .strV _ => .strT
  | .blobV _ => .blobT
  | .docV _ => .docT
  | .zeroV => .zeroT

/-- `ValueType.IsNumber`: true exactly for the numeric family. -/
def VType.isNumber : VType → Bool
  | .intT => true
  | _ => false

/-- Query-layer errors: `document.ErrFieldNotFound`, the two
limit/offset type errors built with `fmt.Errorf`, conversion and decode
failures, `errors.New("missing table selector")`, and a catch-all for
optimizer errors. -/
inductive QErr where
  | fieldNotFound
  | offsetNotNumber (t : VType)
  | limitNotNumber (t : VType)
  | conversionFailed (t : VType)
  | missingTableSelector
  | decodeFailed
  | other (msg : String)
deriving DecidableEq, Repr

/-- `Value.ConvertTo` restricted to the one target type the select
executor uses (`document.IntValue`); fallible, modelled from the spec's
value-conversion boundary. -/
def Value.convertToType (v : Value) (t : VType) : Except QErr Value :=
  match t, v with
  | .intT, .intV n => .ok (.intV n)
  | _, _ => .error (.conversionFailed v.typeOf)

/-- `Value.ConvertToInt`; fallible, modelled from the spec's
value-conversion boundary. -/
def Value.convertToInt : Value → Except QErr Int
  | .intV n => .ok n
  | v => .error (.conversionFailed v.typeOf)

/-- A document together with its storage-assigned key (the source's
`document.Document` which is also a `document.Keyer`). -/
structure Doc where
  fields : List (String × Value)
  key : List Nat

/-- Field lookup on a raw document: first field with the given name, a
miss is `document.ErrFieldNotFound`.  Modelled from the spec's document
model (external `document` package). -/
def docGetByField : List (String × Value) → String → Except QErr Value
  | [], _ => .error .fieldNotFound
  | (f, v) :: rest, name => if f = name then .ok v else docGetByField rest name

/-- `document.ValuePath.GetValue`: walks a dotted field path through
nested document values.  Modelled from the spec (external `document`
package). -/
def pathGetValue : List String → List (String × Value) → Except QErr Value
  | [], _ => .error .fieldNotFound
  | [f], d => docGetByField d f
  | f :: rest, d =>
    match docGetByField d f with
    | .ok (.docV sub) => pathGetValue rest sub
    | .ok _ => .error .fieldNotFound
    | .error e => .error e

/-- `document.ValuePath.String`: dot-joined path fragments. -/
def pathToString (p : List String) : String :=
  String.intercalate "." p

/-- Big-endian byte-string value. -/
def beNat (bs : List Nat) : Nat :=
  bs.foldl (fun a b => a * 256 + b) 0

/-- `encoding.DecodeValue(document.Int64Value, b)`: decodes an 8-byte
big-endian, offset-binary storage key into a signed integer value.
Modelled from the spec ("decodes the document's storage-assigned
integer key"; external `encoding` package). -/
def decodeInt64 (bs : List Nat) : Except QErr Value :=
  if bs.length = 8 then .ok (.intV ((beNat bs : Int) - 2 ^ 63))
  else .error .decodeFailed

/-- Table configuration: the optional primary-key path (empty list for
"no declared primary key"). -/
structure TableConfig where
  primaryKeyPath : List String

/-- The evaluation context (`query.EvalStack`).  Go leaves the unused
fields nil; here they carry empty defaults supplied at construction. -/
structure EvalStack where
  tx : Option Unit
  params : List Value
  document : Doc
  cfg : TableConfig

/-- An expression node, as the evaluator sees it: Go's
`Expr.Eval(stack) (document.Value, error)` becomes a function into a
value/error pair (on error the value component is whatever the
implementation returned alongside it, by convention the zero value). -/
def RExpr : Type := EvalStack → Value × Option QErr

/-- The `ResultField` variants of the source, as the closed sum the
spec's design notes prescribe: expression field (`ResultFieldExpr` with
its `ExprName`), `Wildcard`, and the `KeyFunc` pseudo-column. -/
inductive ResultField where
  | exprF (e : RExpr) (name : String)
  | wildcard
  | keyFunc

/-- `ResultField.Name()`: the expression's raw name, `"*"`, or
`"key()"`. -/
def ResultField.name : ResultField → String
  | .exprF _ n => n
  | .wildcard => "*"
  | .keyFunc => "key()"

/-- `document.Document.Iterate` on a raw document: calls `fn` once per
field, short-circuiting on the first error.  The Go callback closes
over mutable state; here the state `σ` is threaded explicitly. -/
def docIterate {σ : Type} :
    List (String × Value) → (String → Value → σ → Except QErr σ) → σ →
      Except QErr σ
  | [], _, s => .ok s
  | (f, v) :: rest, fn, s =>
    match fn f v s with
    | .error e => .error e
    | .ok s' => docIterate rest fn s'

/-- `ResultField.Iterate` (the three `Iterate` methods of the source):

* `ResultFieldExpr.Iterate`: evaluates the expression; a non-nil error
  other than `ErrFieldNotFound` aborts; otherwise `fn` is called with
  the expression name and the returned value — note that on a
  suppressed `ErrFieldNotFound` the call still happens, with the value
  the failed evaluation returned (Go's zero `document.Value`);
* `Wildcard.Iterate`: delegates to the document's own iteration;
* `KeyFunc.Iterate`: with a declared primary-key path, emits that
  path's value under the path's dotted name; otherwise decodes the
  storage-assigned key and emits it under `"key()"`. -/
def ResultField.iterate {σ : Type} (rf : ResultField) (stack : EvalStack)
    (fn : String → Value → σ → Except QErr σ) (s : σ) : Except QErr σ :=
  match rf with
  | .exprF e name =>
    let r := e stack
    match r.2 with
    | some er => if er ≠ QErr.fieldNotFound then .error er else fn name r.1 s
    | none => fn name r.1 s
  | .wildcard => docIterate stack.document.fields fn s
  | .keyFunc =>
    if stack.cfg.primaryKeyPath ≠ [] then
      match pathGetValue stack.cfg.primaryKeyPath stack.document.fields with
      | .error er => .error er
      | .ok v => fn (pathToString stack.cfg.primaryKeyPath) v s
    else
      match decodeInt64 stack.document.key with
      | .error er => .error er
      | .ok v => fn "key()" v s

/-- The projected document (`documentMask`). -/
structure DocumentMask where
  cfg : TableConfig
  r : Doc
  resultFields : List ResultField

/-- The loop body of `documentMask.GetByField`: scan the declared
result fields; on the first whose name equals the requested name or is
the wildcard, delegate to the raw document's lookup; otherwise
`ErrFieldNotFound`. -/
def maskLookup : List ResultField → Doc → String → Except QErr Value
  | [], _, _ => .error .fieldNotFound
  | rf :: rest, d, name =>
    if rf.name = name ∨ rf.name = "*" then docGetByField d.fields name
    else maskLookup rest d name

/-- `documentMask.GetByField`. -/
def DocumentMask.getByField (m : DocumentMask) (name : String) :
    Except QErr Value :=
  maskLookup m.resultFields m.r name

/-- The evaluation stack `documentMask.Iterate` builds: the wrapped
document and the table configuration (the other fields are Go-nil). -/
def maskStack (m : DocumentMask) : EvalStack :=
  { tx := none, params := [], document := m.r, cfg := m.cfg }

/-- The loop of `documentMask.Iterate`: each result field in order,
short-circuiting on the first error. -/
def iterateFields {σ : Type} (rfs : List ResultField) (stack : EvalStack)
    (fn : String → Value → σ → Except QErr σ) (s : σ) : Except QErr σ :=
  match rfs with
  | [] => .ok s
  | rf :: rest =>
    match rf.iterate stack fn s with
    | .error e => .error e
    | .ok s' => iterateFields rest stack fn s'

/-- `documentMask.Iterate`. -/
def DocumentMask.iterate {σ : Type} (m : DocumentMask)
    (fn : String → Value → σ → Except QErr σ) (s : σ) : Except QErr σ :=
  iterateFields m.resultFields (maskStack m) fn s

/-! ## C2: suppression of FieldNotFound in projection -/

/-- An evaluation stack over an empty document (for the C2 examples). -/
def c2Stack : EvalStack :=
  { tx := none, params := [], document := ⟨[], []⟩, cfg := ⟨[]⟩ }

/-- An expression whose evaluation misses a field: it returns the zero
value together with `ErrFieldNotFound`, as a Go field-reference
evaluation does. -/
def c2BadExpr : RExpr := fun _ => (Value.zeroV, some QErr.fieldNotFound)

/-- A recording emit callback: appends each emitted pair to the state. -/
def c2Rec (name : String) (v : Value) (s : List (String × Value)) :
    Except QErr (List (String × Value)) :=
  .ok (s ++ [(name, v)])

/-- C2 counterexample: when the expression of a `ResultFieldExpr`
reports `field not found`, the emit callback IS invoked — with the zero
value the failed evaluation returned — rather than the field being
omitted: a recording callback observes the emitted pair
`("a", zero value)`. -/
theorem c2_suppression_cex :
    ResultField.iterate (.exprF c2BadExpr "a") c2Stack c2Rec [] =
      .ok [("a", Value.zeroV)] ∧
    (Except.ok [("a", Value.zeroV)] : Except QErr (List (String × Value))) ≠
      .ok [] :=
  ⟨rfl, fun h => by simp at h⟩

/-- C2 (amended): during projection of an expression `ResultField`, a
`field not found` evaluation result is suppressed — the error does not
abort, the emit callback is invoked with the (zero) value the
evaluation returned, and projection continues with the remaining result
fields — while any other evaluation error aborts the projection with
that error. -/
theorem c2_fieldnotfound_suppressed {σ : Type} (e : RExpr) (name : String)
    (stack : EvalStack) (fn : String → Value → σ → Except QErr σ) (s : σ)
    (v : Value) :
    (e stack = (v, some QErr.fieldNotFound) →
      ResultField.iterate (.exprF e name) stack fn s = fn name v s) ∧
    (∀ er : QErr, er ≠ QErr.fieldNotFound → e stack = (v, some er) →
      ResultField.iterate (.exprF e name) stack fn s = Except.error er) ∧
    (∀ (rest : List ResultField) (s' : σ),
      e stack = (v, some QErr.fieldNotFound) → fn name v s = .ok s' →
      iterateFields (ResultField.exprF e name :: rest) stack fn s =
        iterateFields rest stack fn s') := by
  refine ⟨?_, ?_, ?_⟩
  · intro h
    simp [ResultField.iterate, h]
  · intro er her h
    simp [ResultField.iterate, h, her]
  · intro rest s' h hfn
    simp [iterateFields, ResultField.iterate, h, hfn]

/-- C2 witness: the amended theorem at the concrete missing-field
expression, with a recording callback. -/
theorem c2_fieldnotfound_suppressed_witness :
    ResultField.iterate (.exprF c2BadExpr "a") c2Stack c2Rec [] =
      c2Rec "a" Value.zeroV [] :=
  (c2_fieldnotfound_suppressed c2BadExpr "a" c2Stack c2Rec []
    Value.zeroV).1 rfl

/-! ## C3: projected-document field lookup -/

theorem maskLookup_of_any {rfs : List ResultField} {d : Doc} {name : String} :
    ((rfs.any fun rf => rf.name == name || rf.name == "*") = true →
      maskLookup rfs d name = docGetByField d.fields name) ∧
    ((rfs.any fun rf => rf.name == name || rf.name == "*") = false →
      maskLookup rfs d name = .error QErr.fieldNotFound) := by
  induction rfs with
  | nil => simp [maskLookup]
  | cons rf rest ih =>
    by_cases h : rf.name = name ∨ rf.name = "*"
    · constructor
      · intro _
        simp [maskLookup, h]
      · intro hany
        rw [List.any_cons] at hany
        rcases h with h | h <;> simp [h] at hany
    · constructor
      · intro hany
        rw [List.any_cons] at hany
        rw [Bool.or_eq_true] at hany
        rcases hany with hh | hh
        · rw [Bool.or_eq_true] at hh
          rcases hh with hh | hh <;>
            exact absurd (by simp [beq_iff_eq] at hh; tauto) h
        · rw [maskLookup, if_neg h]
          exact ih.1 hh
      · intro hany
        rw [List.any_cons] at hany
        rw [maskLookup, if_neg h]
        exact ih.2 (by
          rcases Bool.or_eq_false_iff.mp hany with ⟨-, h2⟩
          exact h2)

/-- C3: field lookup on a projected document matches the requested name
against the declared result-field names — an exact name match or a
wildcard — and delegates to the raw document only on a match; when no
result field matches, it fails with `FieldNotFound` no matter what the
raw source document contains, so a successful lookup implies a
matching declared field. -/
theorem c3_mask_getByField (m : DocumentMask) (name : String) :
    ((m.resultFields.any fun rf => rf.name == name || rf.name == "*") = true →
      m.getByField name = docGetByField m.r.fields name) ∧
    ((m.resultFields.any fun rf => rf.name == name || rf.name == "*") = false →
      m.getByField name = .error QErr.fieldNotFound) ∧
    (∀ v, m.getByField name = .ok v →
      (m.resultFields.any fun rf => rf.name == name || rf.name == "*") = true) := by
  refine ⟨maskLookup_of_any.1, maskLookup_of_any.2, ?_⟩
  intro v hv
  by_contra hany
  rw [Bool.not_eq_true] at hany
  rw [DocumentMask.getByField, maskLookup_of_any.2 hany] at hv
  cases hv

/-- The mask for the C3 witness: one expression field named `"a"` over
a raw document that does contain a field `"b"`. -/
def c3Mask : DocumentMask :=
  { cfg := ⟨[]⟩
    r := ⟨[("a", .intV 1), ("b", .intV 2)], []⟩
    resultFields := [.exprF (fun _ => (.nullV, none)) "a"] }

/-- C3 witness: looking up `"b"` — present in the raw document but not
declared by any result field — fails with `FieldNotFound`, while the
raw document's own lookup would succeed. -/
theorem c3_mask_getByField_witness :
    c3Mask.getByField "b" = .error QErr.fieldNotFound ∧
    docGetByField c3Mask.r.fields "b" = .ok (.intV 2) :=
  ⟨(c3_mask_getByField c3Mask "b").2.1 rfl, rfl⟩

/-! ## C8: the key pseudo-column -/

/-- C8: `KeyFunc.Iterate` emits exactly one pair (the single call to
the emit callback, for an arbitrary callback and state): with a
declared non-empty primary-key path, the path's value from the document
under the path's dotted name; otherwise the storage-assigned key
decoded as an integer under the reserved name `"key()"`. -/
theorem c8_key_pseudo_column {σ : Type} (stack : EvalStack)
    (fn : String → Value → σ → Except QErr σ) (s : σ) (v : Value) :
    (stack.cfg.primaryKeyPath ≠ [] →
      pathGetValue stack.cfg.primaryKeyPath stack.document.fields =
        Except.ok v →
      ResultField.iterate .keyFunc stack fn s =
        fn (pathToString stack.cfg.primaryKeyPath) v s) ∧
    (stack.cfg.primaryKeyPath = [] →
      decodeInt64 stack.document.key = Except.ok v →
      ResultField.iterate .keyFunc stack fn s = fn "key()" v s) := by
  constructor
  · intro hp hv
    simp [ResultField.iterate, hp, hv]
  · intro hp hv
    simp [ResultField.iterate, hp, hv]

/-- Stack with a declared primary key `id` (for the C8 witness). -/
def c8PkStack : EvalStack :=
  { tx := none, params := []
    document := ⟨[("id", .intV 42)], []⟩
    cfg := ⟨["id"]⟩ }

/-- Stack with no declared primary key and an 8-byte storage key (for
the C8 witness). -/
def c8KeyStack : EvalStack :=
  { tx := none, params := []
    document := ⟨[("x", .nullV)], [0, 0, 0, 0, 0, 0, 0, 42]⟩
    cfg := ⟨[]⟩ }

/-- A recording emit callback for the C8 witness. -/
def c8Rec (name : String) (v : Value) (s : List (String × Value)) :
    Except QErr (List (String × Value)) :=
  .ok (s ++ [(name, v)])

/-- C8 witness: both branches of the theorem at concrete stacks — the
declared-path case emits `("id", 42)`, the implicit case emits the
decoded storage key under `"key()"`. -/
theorem c8_key_pseudo_column_witness :
    (ResultField.iterate .keyFunc c8PkStack c8Rec [] =
      c8Rec (pathToString ["id"]) (.intV 42) []) ∧
    (ResultField.iterate .keyFunc c8KeyStack c8Rec [] =
      c8Rec "key()" (.intV ((beNat [0, 0, 0, 0, 0, 0, 0, 42] : Int) - 2 ^ 63))
        []) :=
  ⟨(c8_key_pseudo_column c8PkStack c8Rec [] (.intV 42)).1 (by decide) rfl,
    (c8_key_pseudo_column c8KeyStack c8Rec []
      (.intV ((beNat [0, 0, 0, 0, 0, 0, 0, 42] : Int) - 2 ^ 63))).2 rfl rfl⟩

/-! ## The select-statement executor

Translation of `SelectStmt.exec`.  The query optimizer
(`newQueryOptimizer` / `optimizeQuery`) is repository code outside the
translated files; it is taken as an abstract `Backend` parameter —
modelled from the spec: `newQueryOptimizer` resolves the table (it can
fail, e.g. missing table) and yields its configuration, `optimizeQuery`
builds the base stream from the assigned fields.  The stream
combinators are likewise repository code outside the translated files;
modelled from the spec (§4.3): a stream is the finite document sequence
it produces, `Offset(n)` skips the first `n` documents, `Limit(n)` stops
after `n`, `Map` transforms each (the mask transform never fails). -/

/-- The scanner tokens the executor consults (`scanner.ASC`,
`scanner.DESC`, anything else). -/
inductive ScanToken where
  | ASC | DESC | ILLEGAL
deriving DecidableEq, Repr

/-- The `SelectStmt` structure of the source. -/
structure SelectStmt where
  tableName : String
  whereExpr : Option RExpr
  orderBy : Option String
  orderByDirection : ScanToken
  offsetExpr : Option RExpr
  limitExpr : Option RExpr
  selectors : List ResultField

/-- The fields `exec` assigns onto the query optimizer before invoking
`optimizeQuery`. -/
structure QOParams where
  cfg : TableConfig
  whereExpr : Option RExpr
  args : List Value
  orderBy : Option String
  orderByDirection : ScanToken
  limit : Int
  offset : Int

/-- Modelled from the spec: the optimizer interface `exec` drives —
table resolution returning the table configuration, and plan selection
returning the base document stream. -/
structure Backend where
  newQueryOptimizer : Option Unit → String → Except QErr TableConfig
  optimizeQuery : QOParams → Except QErr (List Doc)

/-- The statement's result: the stream of projected documents. -/
structure QueryResult where
  stream : List DocumentMask

/-- The masking transform `exec` passes to `Map`: wrap a document in
the `documentMask` carrying the table configuration and the statement's
result fields. -/
def maskOf (cfg : TableConfig) (sel : List ResultField) (d : Doc) :
    DocumentMask :=
  { cfg := cfg, r := d, resultFields := sel }

/-- Modelled from the spec: stream `Offset(n)` skips the first `n`
documents. -/
def streamOffset (n : Int) (st : List Doc) : List Doc :=
  st.drop n.toNat

/-- Modelled from the spec: stream `Limit(n)` stops production after
`n` documents. -/
def streamLimit (n : Int) (st : List Doc) : List Doc :=
  st.take n.toNat

/-- The direction normalization at the top of `exec`: anything that is
not `DESC` becomes `ASC`. -/
def normDir (t : ScanToken) : ScanToken :=
  if t ≠ ScanToken.DESC then ScanToken.ASC else t

/-- The evaluation stack `exec` builds: transaction handle and bound
parameters (document and configuration are Go-nil there). -/
def execStack (tx : Option Unit) (args : List Value) : EvalStack :=
  { tx := tx, params := args, document := ⟨[], []⟩, cfg := ⟨[]⟩ }

/-- The limit/offset evaluation block of `exec` (present twice in the
source, once per expression, differing only in the error message): a
missing expression keeps the default `-1`; otherwise the expression is
evaluated, a non-nil error propagates, a non-numeric value yields the
type error built from `notNum`, and the value is converted to the
integer type and then to an int. -/
def evalLimitOffset (stack : EvalStack) (e? : Option RExpr)
    (notNum : VType → QErr) : Except QErr Int :=
  match e? with
  | none => .ok (-1)
  | some e =>
    let r := e stack
    match r.2 with
    | some er => .error er
    | none =>
      if r.1.typeOf.isNumber = false then .error (notNum r.1.typeOf)
      else
        match r.1.convertToType VType.intT with
        | .error er => .error er
        | .ok voff => voff.convertToInt

/-- `SelectStmt.exec`: table-selector check, direction normalization,
offset then limit evaluation, optimizer construction and invocation,
then the combinator chain — `Offset` only when the evaluated offset is
positive, `Limit` only when the evaluated limit is non-negative, and
finally the projection `Map` wrapping every document in the
`documentMask`. -/
def SelectStmt.exec (stmt : SelectStmt) (b : Backend) (tx : Option Unit)
    (args : List Value) : Except QErr QueryResult :=
  if stmt.tableName = "" then .error .missingTableSelector
  else
    let dir := normDir stmt.orderByDirection
    let stack := execStack tx args
    match evalLimitOffset stack stmt.offsetExpr QErr.offsetNotNumber with
    | .error er => .error er
    | .ok offset =>
      match evalLimitOffset stack stmt.limitExpr QErr.limitNotNumber with
      | .error er => .error er
      | .ok limit =>
        match b.newQueryOptimizer tx stmt.tableName with
        | .error er => .error er
        | .ok cfg =>
          match b.optimizeQuery
              { cfg := cfg, whereExpr := stmt.whereExpr, args := args,
                orderBy := stmt.orderBy, orderByDirection := dir,
                limit := limit, offset := offset } with
          | .error er => .error er
          | .ok st0 =>
            let st1 := if 0 < offset then streamOffset offset st0 else st0
            let st2 := if 0 ≤ limit then streamLimit limit st1 else st1
            .ok { stream := st2.map fun d =>
              { cfg := cfg, r := d, resultFields := stmt.selectors } }

theorem evalLimitOffset_nonnumeric (stack : EvalStack) (e : RExpr)
    (v : Value) (notNum : VType → QErr) (hev : e stack = (v, none))
    (hnn : v.typeOf.isNumber = false) :
    evalLimitOffset stack (some e) notNum = .error (notNum v.typeOf) := by
  simp [evalLimitOffset, hev, hnn]

theorem evalLimitOffset_int (stack : EvalStack) (e : RExpr) (n : Int)
    (notNum : VType → QErr) (hev : e stack = (.intV n, none)) :
    evalLimitOffset stack (some e) notNum = .ok n := by
  simp [evalLimitOffset, hev, Value.typeOf, VType.isNumber,
    Value.convertToType, Value.convertToInt]

/-- C6: a select statement whose OFFSET (respectively LIMIT) expression
evaluates — without error — to a non-numeric value fails with the
corresponding type error; the theorem holds for every `Backend`, so the
result does not depend on the optimizer in any way: no optimizer result
is consulted and no stream is constructed, and the value is not coerced
to zero. -/
theorem c6_nonnumeric_limit_offset (b : Backend) (stmt : SelectStmt)
    (tx : Option Unit) (args : List Value) (ht : stmt.tableName ≠ "") :
    (∀ (e : RExpr) (v : Value), stmt.offsetExpr = some e →
      e (execStack tx args) = (v, none) → v.typeOf.isNumber = false →
      stmt.exec b tx args = .error (QErr.offsetNotNumber v.typeOf)) ∧
    (∀ (e : RExpr) (v : Value) (m : Int),
      evalLimitOffset (execStack tx args) stmt.offsetExpr
        QErr.offsetNotNumber = .ok m →
      stmt.limitExpr = some e →
      e (execStack tx args) = (v, none) → v.typeOf.isNumber = false →
      stmt.exec b tx args = .error (QErr.limitNotNumber v.typeOf)) := by
  constructor
  · intro e v hoe hev hnn
    have h1 := evalLimitOffset_nonnumeric (execStack tx args) e v
      QErr.offsetNotNumber hev hnn
    simp only [SelectStmt.exec, if_neg ht, hoe, h1]
  · intro e v m hoff hle hev hnn
    have h1 := evalLimitOffset_nonnumeric (execStack tx args) e v
      QErr.limitNotNumber hev hnn
    simp only [SelectStmt.exec, if_neg ht, hoff, hle, h1]

/-- The backend used by the C6 witness. -/
def c6Backend : Backend :=
  { newQueryOptimizer := fun _ _ => .ok ⟨[]⟩
    optimizeQuery := fun _ => .ok [] }

/-- A select statement with the string literal `"hello"` as LIMIT. -/
def c6Stmt : SelectStmt :=
  { tableName := "t", whereExpr := none, orderBy := none
    orderByDirection := .ASC, offsetExpr := none
    limitExpr := some (fun _ => (.strV "hello", none))
    selectors := [] }

/-- C6 witness: the concrete statement with a string LIMIT fails with
the limit type error. -/
theorem c6_nonnumeric_limit_offset_witness :
    c6Stmt.exec c6Backend none [] = .error (QErr.limitNotNumber VType.strT) :=
  (c6_nonnumeric_limit_offset c6Backend c6Stmt none [] (by decide)).2
    (fun _ => (.strV "hello", none)) (.strV "hello") (-1) rfl rfl rfl rfl

/-- C7: with a positive evaluated offset `n` and non-negative evaluated
limit `k`, `exec` chains the combinators onto the optimizer's stream in
the fixed order `Offset` then `Limit`, then the projection `Map` last;
and `Offset(n)` followed by `Limit(k)` yields exactly the documents at
positions `[n, n+k)` of the stream's natural order — length
`min k (m - n)` on a stream of `m` documents, position `i` of the
result being position `n + i` of the stream. -/
theorem c7_offset_limit_map_order :
    (∀ (b : Backend) (stmt : SelectStmt) (tx : Option Unit)
      (args : List Value) (eo el : RExpr) (n k : Int) (cfg : TableConfig)
      (docs : List Doc),
      stmt.tableName ≠ "" →
      stmt.offsetExpr = some eo →
      eo (execStack tx args) = (.intV n, none) → 0 < n →
      stmt.limitExpr = some el →
      el (execStack tx args) = (.intV k, none) → 0 ≤ k →
      b.newQueryOptimizer tx stmt.tableName = .ok cfg →
      b.optimizeQuery
        { cfg := cfg, whereExpr := stmt.whereExpr, args := args,
          orderBy := stmt.orderBy,
          orderByDirection := normDir stmt.orderByDirection,
          limit := k, offset := n } = .ok docs →
      stmt.exec b tx args = .ok { stream := (streamLimit k (streamOffset n docs)).map (maskOf cfg stmt.selectors) }) ∧
    (∀ (docs : List Doc) (n k : Nat),
      (streamLimit (Int.ofNat k) (streamOffset (Int.ofNat n) docs)).length =
        min k (docs.length - n) ∧
      ∀ i : Nat,
        (streamLimit (Int.ofNat k) (streamOffset (Int.ofNat n) docs))[i]? =
          if i < k then docs[n + i]? else none) := by
  constructor
  · intro b stmt tx args eo el n k cfg docs ht hoe heo hn hle hel hk hqo hopt
    have h1 := evalLimitOffset_int (execStack tx args) eo n
      QErr.offsetNotNumber heo
    have h2 := evalLimitOffset_int (execStack tx args) el k
      QErr.limitNotNumber hel
    simp only [SelectStmt.exec, if_neg ht, hoe, h1, hle, h2, hqo, hopt,
      if_pos hn, if_pos hk]
    rfl
  · intro docs n k
    constructor
    · simp [streamLimit, streamOffset]
    · intro i
      simp [streamLimit, streamOffset, List.getElem?_take,
        List.getElem?_drop]

/-- Four raw documents for the C7 witness. -/
def c7Docs : List Doc :=
  [⟨[("a", .intV 0)], [0]⟩, ⟨[("a", .intV 1)], [1]⟩,
    ⟨[("a", .intV 2)], [2]⟩, ⟨[("a", .intV 3)], [3]⟩]

/-- The backend used by the C7 witness: optimizer yields `c7Docs`. -/
def c7Backend : Backend :=
  { newQueryOptimizer := fun _ _ => .ok ⟨[]⟩
    optimizeQuery := fun _ => .ok c7Docs }

/-- A select statement with OFFSET 1 and LIMIT 2. -/
def c7Stmt : SelectStmt :=
  { tableName := "t", whereExpr := none, orderBy := none
    orderByDirection := .ASC
    offsetExpr := some (fun _ => (.intV 1, none))
    limitExpr := some (fun _ => (.intV 2, none))
    selectors := [.wildcard] }

/-- C7 witness: the theorem at the concrete statement (OFFSET 1,
LIMIT 2 over four documents), and the positional law at n = 1, k = 2. -/
theorem c7_offset_limit_map_order_witness :
    (c7Stmt.exec c7Backend none [] = .ok { stream := (streamLimit 2 (streamOffset 1 c7Docs)).map (maskOf ⟨[]⟩ c7Stmt.selectors) }) ∧
    (streamLimit (Int.ofNat 2) (streamOffset (Int.ofNat 1) c7Docs)).length =
      min 2 (c7Docs.length - 1) :=
  ⟨c7_offset_limit_map_order.1 c7Backend c7Stmt none []
      (fun _ => (.intV 1, none)) (fun _ => (.intV 2, none)) 1 2 ⟨[]⟩ c7Docs
      (by decide) rfl rfl (by decide) rfl rfl (by decide) rfl rfl,
    (c7_offset_limit_map_order.2 c7Docs 1 2).1⟩

/-- C10: the combinator guards of `exec` — `Offset` is chained only for
a strictly positive evaluated offset and `Limit` only for a
non-negative evaluated limit.  Consequently a zero or negative OFFSET
leaves the stream unchanged, LIMIT 0 produces the empty stream, and a
negative LIMIT imposes no limit at all. -/
theorem c10_offset_limit_guards (b : Backend) (stmt : SelectStmt)
    (tx : Option Unit) (args : List Value) (eo el : RExpr) (n k : Int)
    (cfg : TableConfig) (docs : List Doc)
    (ht : stmt.tableName ≠ "")
    (hoe : stmt.offsetExpr = some eo)
    (heo : eo (execStack tx args) = (.intV n, none))
    (hle : stmt.limitExpr = some el)
    (hel : el (execStack tx args) = (.intV k, none))
    (hqo : b.newQueryOptimizer tx stmt.tableName = .ok cfg)
    (hopt : b.optimizeQuery
      { cfg := cfg, whereExpr := stmt.whereExpr, args := args,
        orderBy := stmt.orderBy,
        orderByDirection := normDir stmt.orderByDirection,
        limit := k, offset := n } = .ok docs) :
    (n ≤ 0 → 0 ≤ k →
      stmt.exec b tx args = .ok { stream := (streamLimit k docs).map (maskOf cfg stmt.selectors) }) ∧
    (k = 0 → stmt.exec b tx args = .ok { stream := [] }) ∧
    (n ≤ 0 → k < 0 →
      stmt.exec b tx args =
        .ok { stream := docs.map (maskOf cfg stmt.selectors) }) ∧
    (0 < n → k < 0 →
      stmt.exec b tx args = .ok { stream := (streamOffset n docs).map (maskOf cfg stmt.selectors) }) := by
  have h1 := evalLimitOffset_int (execStack tx args) eo n
    QErr.offsetNotNumber heo
  have h2 := evalLimitOffset_int (execStack tx args) el k
    QErr.limitNotNumber hel
  refine ⟨?_, ?_, ?_, ?_⟩
  · intro hn hk
    simp only [SelectStmt.exec, if_neg ht, hoe, h1, hle, h2, hqo, hopt,
      if_neg (by omega : ¬ (0 : Int) < n), if_pos hk]
    rfl
  · intro hk
    subst hk
    by_cases hn : (0 : Int) < n
    · simp only [SelectStmt.exec, if_neg ht, hoe, h1, hle, h2, hqo, hopt,
        if_pos hn, if_pos (by omega : (0 : Int) ≤ 0)]
      simp [streamLimit]
    · simp only [SelectStmt.exec, if_neg ht, hoe, h1, hle, h2, hqo, hopt,
        if_neg hn, if_pos (by omega : (0 : Int) ≤ 0)]
      simp [streamLimit]
  · intro hn hk
    simp only [SelectStmt.exec, if_neg ht, hoe, h1, hle, h2, hqo, hopt,
      if_neg (by omega : ¬ (0 : Int) < n),
      if_neg (by omega : ¬ (0 : Int) ≤ k)]
    rfl
  · intro hn hk
    simp only [SelectStmt.exec, if_neg ht, hoe, h1, hle, h2, hqo, hopt,
      if_pos hn, if_neg (by omega : ¬ (0 : Int) ≤ k)]
    rfl

/-- Two raw documents for the C10 witness. -/
def c10Docs : List Doc :=
  [⟨[("a", .intV 0)], [0]⟩, ⟨[("a", .intV 1)], [1]⟩]

/-- The backend used by the C10 witness: optimizer yields `c10Docs`. -/
def c10Backend : Backend :=
  { newQueryOptimizer := fun _ _ => .ok ⟨[]⟩
    optimizeQuery := fun _ => .ok c10Docs }

/-- A select statement with OFFSET 0 and LIMIT -1 (no explicit limit
behaviour). -/
def c10Stmt : SelectStmt :=
  { tableName := "t", whereExpr := none, orderBy := none
    orderByDirection := .ASC
    offsetExpr := some (fun _ => (.intV 0, none))
    limitExpr := some (fun _ => (.intV (-1), none))
    selectors := [.wildcard] }

/-- C10 witness: with evaluated offset 0 and limit -1, the stream is
the optimizer's stream unchanged — no drop, no take. -/
theorem c10_offset_limit_guards_witness :
    c10Stmt.exec c10Backend none [] =
      .ok { stream := c10Docs.map (maskOf ⟨[]⟩ c10Stmt.selectors) } :=
  (c10_offset_limit_guards c10Backend c10Stmt none []
      (fun _ => (.intV 0, none)) (fun _ => (.intV (-1), none)) 0 (-1) ⟨[]⟩
      c10Docs (by decide) rfl rfl rfl rfl rfl rfl).2.2.1
    (by decide) (by decide)

end Genji
